import Mathlib

/-!
# `bessk`: upward recurrence for the modified Bessel function of the second kind

Shallow embedding of `src/nr/bessk.c`:

```c
double bessk(int n, double x)
{
  ...
  if (n < 2) nrerror("Index n less than 2 in bessk");
  tox=2.0/x;
  bkm=bessk0(x);
  bk=bessk1(x);
  for (j=1;j<n;j++) {
    bkp=bkm+j*tox*bk;
    bkm=bk;
    bk=bkp;
  }
  return bk;
}
```

* `double` is an arbitrary carrier `α` with `+`, `*`, `/`, the literal `2` and a conversion
  from `int`; the embedding itself assumes no law of arithmetic.  Theorems that speak of
  exact arithmetic take `α` to be a field (an ordered field where order is involved).
* `int` is `Int`; the increment `j++` is reduced into the 32-bit range by `wrapInt`.
* The collaborators `bessk0`, `bessk1` and `nrerror` are declared but not defined in the
  source file; they are parameters of the embedding.  A reporter is a function
  `String → Option Unit`, `none` meaning that control does not come back to the caller.
* The `for` loop is run with fuel; every observable effect is logged in a trace.
* Where a statement is about the true Bessel values, the base evaluators are `besselK 0`
  and `besselK 1`, the integral representation of `K_0` and `K_1` over the reals.
* `Double` is the carrier of the compiled code, IEEE 754 binary64 with round to nearest
  even, infinities and NaN.  Statements that hold only in exact arithmetic are refuted at
  `Double` and proved over a field.
-/

namespace Bessk

/-- Largest value of a 32-bit C `int`. -/
def INT_MAX : Int := 2147483647

/-- Smallest value of a 32-bit C `int`. -/
def INT_MIN : Int := -2147483648

/-- Reduction of an integer into the 32-bit two's complement range. -/
def wrapInt (v : Int) : Int := (v + 2147483648) % 4294967296 - 2147483648

/-- The text handed to `nrerror` by `bessk`. -/
def errorText : String := "Index n less than 2 in bessk"

/-- Observable effects of one call of `bessk`, in program order. -/
inductive Event (α : Type) where
  /-- Call `nrerror(msg)`. -/
  | nrerror (msg : String) : Event α
  /-- Assignment `tox=2.0/x`, with the value stored. -/
  | tox (v : α) : Event α
  /-- Call `bessk0(x)`. -/
  | bessk0 (x : α) : Event α
  /-- Call `bessk1(x)`. -/
  | bessk1 (x : α) : Event α
  /-- Entry of the loop body with counter `j` and window `bkm`, `bk`. -/
  | body (j : Int) (bkm bk : α) : Event α
  deriving DecidableEq, Repr

/-- How a call of `bessk` ends. -/
inductive Outcome (α : Type) where
  /-- Normal return, `return bk;`. -/
  | returned (bk : α) : Outcome α
  /-- Control never came back from `nrerror(msg)`. -/
  | exited (msg : String) : Outcome α
  /-- The fuel given to the loop was used up before the loop test failed. -/
  | unfinished : Outcome α
  deriving DecidableEq, Repr

/-- Trace and outcome of one call. -/
structure Run (α : Type) where
  /-- Effects in program order. -/
  trace : List (Event α)
  /-- End of the call. -/
  outcome : Outcome α
  deriving DecidableEq, Repr

/-- The loop state: counter `j` and the window `bkm`, `bk`. -/
structure Win (α : Type) where
  /-- Loop counter. -/
  j : Int
  /-- Local `bkm`. -/
  bkm : α
  /-- Local `bk`. -/
  bk : α
  deriving DecidableEq, Repr

section Code

variable {α : Type} [Add α] [Mul α] [Div α] [OfNat α 2] [IntCast α]

/-- One pass through the loop body followed by `j++`:
`bkp=bkm+j*tox*bk; bkm=bk; bk=bkp; j++`. -/
def loopStep (tox : α) (w : Win α) : Win α :=
  let bkp := w.bkm + (w.j : α) * tox * w.bk
  { j := wrapInt (w.j + 1), bkm := w.bk, bk := bkp }

/-- The loop `for (...;j<n;j++) { ... }` started in window `w`.  Returns the windows with
which the body was entered, in order, and the window at loop exit (`none` when the fuel
ran out first). -/
def forLoop (n : Int) (tox : α) : Nat → Win α → List (Win α) × Option (Win α)
  | 0, w => if w.j < n then ([], none) else ([], some w)
  | fuel + 1, w =>
    if w.j < n then
      let r := forLoop n tox fuel (loopStep tox w)
      (w :: r.1, r.2)
    else ([], some w)

/-- The function `bessk` of `src/nr/bessk.c`, with its three collaborators as parameters. -/
def bessk (nrerror : String → Option Unit) (bessk0 bessk1 : α → α)
    (fuel : Nat) (n : Int) (x : α) : Run α :=
  let check : Option (List (Event α)) :=
    if n < 2 then (nrerror errorText).map (fun _ => [Event.nrerror errorText])
    else some []
  match check with
  | none => { trace := [Event.nrerror errorText], outcome := Outcome.exited errorText }
  | some pre =>
    let tox : α := 2 / x
    let bkm := bessk0 x
    let bk := bessk1 x
    let r := forLoop n tox fuel { j := 1, bkm := bkm, bk := bk }
    { trace := pre ++ [Event.tox tox, Event.bessk0 x, Event.bessk1 x]
        ++ r.1.map (fun w => Event.body w.j w.bkm w.bk),
      outcome := match r.2 with
        | some w => Outcome.returned w.bk
        | none => Outcome.unfinished }

end Code

section Sequence

variable {α : Type} [Add α] [Mul α] [Div α] [OfNat α 2] [IntCast α]

/-- The sequence the results are compared with, defined by its recurrence and not by the
loop: `K 0 = bessk0 x`, `K 1 = bessk1 x`, `K (j+1) = K (j-1) + j * (2/x) * K j` for `j ≥ 1`
(here at index `j + 2`, with the factor `j + 1` converted from `int` as the code does). -/
def K (bessk0 bessk1 : α → α) (x : α) : Nat → α
  | 0 => bessk0 x
  | 1 => bessk1 x
  | j + 2 => K bessk0 bessk1 x j + (((j : Int) + 1 : Int) : α) * (2 / x) * K bessk0 bessk1 x (j + 1)

/-- The window expected at the top of iteration `i + 1`: `j = i + 1`, `bkm = K i`,
`bk = K (i + 1)`. -/
def windowAt (bessk0 bessk1 : α → α) (x : α) (i : Nat) : Win α :=
  { j := (i : Int) + 1, bkm := K bessk0 bessk1 x i, bk := K bessk0 bessk1 x (i + 1) }

/-- The counters `j` of the loop-body entries of a trace, in order. -/
def bodyCounters : List (Event α) → List Int
  | [] => []
  | Event.body j _ _ :: es => j :: bodyCounters es
  | _ :: es => bodyCounters es

/-- The calls of `nrerror` in a trace, in order. -/
def reports : List (Event α) → List String
  | [] => []
  | Event.nrerror msg :: es => msg :: reports es
  | _ :: es => reports es

end Sequence

/-- Modelled from the spec: the error reporter `nrerror`, which `bessk.c` declares but does
not define.  The spec gives it as `reportError(message) -> never returns normally`. -/
def nrerror : String → Option Unit := fun _ => none

/-- A reporter that prints and comes back to its caller. -/
def nrerrorReturning : String → Option Unit := fun _ => some ()

/-- A sample base evaluator over the rationals, constantly `1`. -/
def unitBase : ℚ → ℚ := fun _ => 1

/-- A sample order-0 evaluator over the rationals: the ten-digit value of `K_0(2)`. -/
def tableBessk0 : ℚ → ℚ := fun _ => 0.1138938727

/-- A sample order-1 evaluator over the rationals: the ten-digit value of `K_1(2)`. -/
def tableBessk1 : ℚ → ℚ := fun _ => 0.1398658818

/-- Modelled from the spec: the base evaluators `bessk0` and `bessk1`, which `bessk.c`
declares but does not define.  The spec gives them as returning `K_0(x)` and `K_1(x)`, the
modified Bessel function of the second kind, for `x > 0`.  `besselK ν x` is that function
in its integral representation `K_ν(x) = ∫_0^∞ exp(-x cosh t) cosh(ν t) dt`, over the reals;
`bessk0` is `besselK 0` and `bessk1` is `besselK 1`. -/
noncomputable def besselK (ν : ℕ) (x : ℝ) : ℝ :=
  ∫ t in Set.Ioi (0 : ℝ), Real.exp (-x * Real.cosh t) * Real.cosh (ν * t)

/-- A sample order-0 evaluator over the rationals, positive but not a Bessel value. -/
def skewBessk0 : ℚ → ℚ := fun _ => 10

/-- The C type `double` as IEEE 754 binary64, the arithmetic the compiled code runs in.
A finite value is `(-1)^neg * m * 2^e` in the canonical form of the format: `m < 2^53`, and
either `2^52 ≤ m` with `-1074 ≤ e ≤ 971` (normal) or `e = -1074` (subnormal, or zero when
`m = 0`; the two zeros differ in `neg`).  All quiet NaNs are one value. -/
inductive Double where
  /-- Finite value `(-1)^neg * m * 2^e`. -/
  | fin (neg : Bool) (m : Nat) (e : Int) : Double
  /-- Infinity, negative when `neg`. -/
  | inf (neg : Bool) : Double
  /-- Not a number. -/
  | nan : Double
  deriving DecidableEq, Repr

/-- Number of binary digits of `m`, by halving at most `fuel` times. -/
def Double.bitLengthAux : Nat → Nat → Nat
  | 0, _ => 0
  | fuel + 1, m => if m = 0 then 0 else Double.bitLengthAux fuel (m / 2) + 1

/-- Number of binary digits of `m` (`0` for `0`); `m` halvings always suffice. -/
def Double.bitLength (m : Nat) : Nat := Double.bitLengthAux m m

/-- Rounding to binary64 of the exact value `(-1)^neg * (num / den) * 2^e` with `den > 0`:
round to nearest, ties to even, gradual underflow, overflow to infinity.  The quotient is
first taken to at least 55 binary digits (`q`, with `sticky` recording a remainder), then
cut to the 53 digits of the format or to the subnormal exponent `-1074`. -/
def Double.round (neg : Bool) (num den : Nat) (e : Int) : Double :=
  if num = 0 then Double.fin neg 0 (-1074)
  else
    let k : Nat := 55 + Double.bitLength den - Double.bitLength num
    let q : Nat := num * 2 ^ k / den
    let sticky : Bool := decide (num * 2 ^ k % den ≠ 0)
    let e0 : Int := e - k
    let e1 : Int := max (e0 + Double.bitLength q - 53) (-1074)
    let shift : Nat := (e1 - e0).toNat
    let m : Nat := q / 2 ^ shift
    let rem : Nat := q % 2 ^ shift
    let half : Nat := 2 ^ (shift - 1)
    let up : Bool :=
      decide (half < rem) || (decide (rem = half) && (sticky || decide (m % 2 = 1)))
    let m1 : Nat := if up then m + 1 else m
    let m2 : Nat := if m1 = 2 ^ 53 then 2 ^ 52 else m1
    let e2 : Int := if m1 = 2 ^ 53 then e1 + 1 else e1
    if 971 < e2 then Double.inf neg else Double.fin neg m2 e2

/-- Conversion `(double)j` of an integer. -/
def Double.ofInt (j : Int) : Double := Double.round (decide (j < 0)) j.natAbs 1 0

/-- IEEE 754 multiplication. -/
def Double.mul : Double → Double → Double
  | Double.nan, _ => Double.nan
  | _, Double.nan => Double.nan
  | Double.inf s, Double.inf t => Double.inf (xor s t)
  | Double.inf s, Double.fin t m _ => if m = 0 then Double.nan else Double.inf (xor s t)
  | Double.fin s m _, Double.inf t => if m = 0 then Double.nan else Double.inf (xor s t)
  | Double.fin s m e, Double.fin t n f => Double.round (xor s t) (m * n) 1 (e + f)

/-- IEEE 754 addition. -/
def Double.add : Double → Double → Double
  | Double.nan, _ => Double.nan
  | _, Double.nan => Double.nan
  | Double.inf s, Double.inf t => if s = t then Double.inf s else Double.nan
  | Double.inf s, Double.fin _ _ _ => Double.inf s
  | Double.fin _ _ _, Double.inf t => Double.inf t
  | Double.fin s m e, Double.fin t n f =>
    let g : Int := min e f
    let a : Int := (if s then -(m : Int) else m) * ((2 ^ (e - g).toNat : Nat) : Int)
    let b : Int := (if t then -(n : Int) else n) * ((2 ^ (f - g).toNat : Nat) : Int)
    if a + b = 0 then Double.fin (s && t) 0 (-1074)
    else Double.round (decide (a + b < 0)) (a + b).natAbs 1 g

/-- IEEE 754 division. -/
def Double.div : Double → Double → Double
  | Double.nan, _ => Double.nan
  | _, Double.nan => Double.nan
  | Double.inf _, Double.inf _ => Double.nan
  | Double.inf s, Double.fin t _ _ => Double.inf (xor s t)
  | Double.fin s _ _, Double.inf t => Double.fin (xor s t) 0 (-1074)
  | Double.fin s m e, Double.fin t n f =>
    if n = 0 then (if m = 0 then Double.nan else Double.inf (xor s t))
    else Double.round (xor s t) m n (e - f)

/-- IEEE 754 comparison `a < b` (false when either side is NaN). -/
def Double.lt : Double → Double → Bool
  | Double.nan, _ => false
  | _, Double.nan => false
  | Double.inf s, Double.inf t => s && !t
  | Double.inf s, Double.fin _ _ _ => s
  | Double.fin _ _ _, Double.inf t => !t
  | Double.fin s m e, Double.fin t n f =>
    let g : Int := min e f
    let a : Int := (if s then -(m : Int) else m) * ((2 ^ (e - g).toNat : Nat) : Int)
    let b : Int := (if t then -(n : Int) else n) * ((2 ^ (f - g).toNat : Nat) : Int)
    decide (a < b)

/-- IEEE 754 comparison `a <= b` (false when either side is NaN). -/
def Double.le : Double → Double → Bool
  | Double.nan, _ => false
  | _, Double.nan => false
  | Double.inf s, Double.inf t => s || !t
  | Double.inf s, Double.fin _ _ _ => s
  | Double.fin _ _ _, Double.inf t => !t
  | Double.fin s m e, Double.fin t n f =>
    let g : Int := min e f
    let a : Int := (if s then -(m : Int) else m) * ((2 ^ (e - g).toNat : Nat) : Int)
    let b : Int := (if t then -(n : Int) else n) * ((2 ^ (f - g).toNat : Nat) : Int)
    decide (a ≤ b)

instance : Add Double := ⟨Double.add⟩

instance : Mul Double := ⟨Double.mul⟩

instance : Div Double := ⟨Double.div⟩

instance : IntCast Double := ⟨Double.ofInt⟩

instance (n : Nat) : OfNat Double n := ⟨Double.ofInt n⟩

instance : LT Double := ⟨fun a b => Double.lt a b = true⟩

instance : LE Double := ⟨fun a b => Double.le a b = true⟩

instance (a b : Double) : Decidable (a < b) :=
  inferInstanceAs (Decidable (Double.lt a b = true))

instance (a b : Double) : Decidable (a ≤ b) :=
  inferInstanceAs (Decidable (Double.le a b = true))

/-- The double `2^-1000`, a small positive argument. -/
def tinyX : Double := Double.fin false 4503599627370496 (-1052)

/-- A sample order-0 evaluator in double: the double nearest to `693.2631120756037`, which
is `K_0(2^-1000) = 1001 ln 2 - γ` to sixteen digits. -/
def tinyBessk0 : Double → Double := fun _ => 6932631120756037 / 10000000000000

/-- A sample order-1 evaluator in double: `2^1000`, the double nearest to
`K_1(2^-1000)` (which is `1/x` up to a relative `2^-1990`). -/
def tinyBessk1 : Double → Double := fun _ => Double.fin false 4503599627370496 948

set_option linter.unusedSectionVars false

section Lemmas

variable {α : Type} [Add α] [Mul α] [Div α] [OfNat α 2] [IntCast α]

theorem wrapInt_of_range (v : Int) (lo : INT_MIN ≤ v) (hi : v ≤ INT_MAX) : wrapInt v = v := by
  unfold INT_MIN at lo
  unfold INT_MAX at hi
  unfold wrapInt
  omega

theorem loopStep_windowAt (bessk0 bessk1 : α → α) (x : α) (i : Nat)
    (hi : (i : Int) + 2 ≤ INT_MAX) :
    loopStep (2 / x) (windowAt bessk0 bessk1 x i) = windowAt bessk0 bessk1 x (i + 1) := by
  have hw : wrapInt ((i : Int) + 1 + 1) = (i : Int) + 1 + 1 := by
    apply wrapInt_of_range
    · unfold INT_MIN; omega
    · omega
  simp only [loopStep, windowAt, hw, K, Nat.cast_add, Nat.cast_one]

theorem forLoop_stop (n : Int) (tox : α) (fuel : Nat) (w : Win α) (h : n ≤ w.j) :
    forLoop n tox fuel w = ([], some w) := by
  cases fuel <;> simp [forLoop, not_lt.mpr h]

/-- Started in the window of iteration `i + 1`, with `m` iterations to go and enough fuel,
the loop enters its body with the windows of iterations `i + 1, ..., i + m` and leaves with
the window `i + m`. -/
theorem forLoop_windowAt (bessk0 bessk1 : α → α) (x : α) (n : Int) (hn : n ≤ INT_MAX) :
    ∀ (m i fuel : Nat), (i : Int) + 1 + m = n → m ≤ fuel →
      forLoop n (2 / x) fuel (windowAt bessk0 bessk1 x i)
        = ((List.range m).map (fun k => windowAt bessk0 bessk1 x (i + k)),
            some (windowAt bessk0 bessk1 x (i + m))) := by
  intro m
  induction m with
  | zero =>
    intro i fuel h _
    rw [forLoop_stop]
    · simp
    · simp only [windowAt]; omega
  | succ m ih =>
    intro i fuel h hf
    obtain ⟨f, rfl⟩ : ∃ f, fuel = f + 1 := ⟨fuel - 1, by omega⟩
    have hlt : (windowAt bessk0 bessk1 x i).j < n := by simp only [windowAt]; omega
    have hstep := loopStep_windowAt bessk0 bessk1 x i (by omega)
    have hrec := ih (i + 1) f (by push_cast; omega) (by omega)
    simp only [forLoop, hlt, if_true, hstep, hrec]
    refine Prod.ext ?_ ?_
    · simp only [List.range_succ_eq_map, List.map_cons, List.map_map, add_zero]
      congr 1
      apply List.map_congr_left
      intro k _
      simp only [Function.comp, Nat.succ_eq_add_one]
      congr 1
      omega
    · simp only
      congr 2
      omega

/-- The loop as `bessk` starts it, for any `int` bound `n` and enough fuel. -/
theorem forLoop_from_start (bessk0 bessk1 : α → α) (x : α) (n : Int) (hn : n ≤ INT_MAX)
    (fuel : Nat) (hf : (n - 1).toNat ≤ fuel) :
    forLoop n (2 / x) fuel { j := 1, bkm := bessk0 x, bk := bessk1 x }
      = ((List.range (n - 1).toNat).map (fun k => windowAt bessk0 bessk1 x k),
          some (windowAt bessk0 bessk1 x (n - 1).toNat)) := by
  have h0 : ({ j := 1, bkm := bessk0 x, bk := bessk1 x } : Win α) = windowAt bessk0 bessk1 x 0 := by
    simp [windowAt, K]
  rw [h0]
  by_cases h1 : 1 ≤ n
  · have := forLoop_windowAt bessk0 bessk1 x n hn (n - 1).toNat 0 fuel (by push_cast; omega) hf
    simpa using this
  · have hz : (n - 1).toNat = 0 := by omega
    rw [hz, forLoop_stop]
    · simp
    · simp only [windowAt]; omega

theorem bessk_eq_of_two_le (rep : String → Option Unit) (bessk0 bessk1 : α → α) (x : α) (n : Int)
    (h2 : 2 ≤ n) (fuel : Nat) :
    bessk rep bessk0 bessk1 fuel n x =
      (let r := forLoop n (2 / x) fuel { j := 1, bkm := bessk0 x, bk := bessk1 x }
       { trace := [Event.tox (2 / x), Event.bessk0 x, Event.bessk1 x]
            ++ r.1.map (fun w => Event.body w.j w.bkm w.bk),
         outcome := match r.2 with
            | some w => Outcome.returned w.bk
            | none => Outcome.unfinished }) := by
  simp [bessk, not_lt.mpr h2]

/-- Complete description of a call with `2 ≤ n`. -/
theorem bessk_run_of_two_le (rep : String → Option Unit) (bessk0 bessk1 : α → α) (x : α)
    (n : Int) (h2 : 2 ≤ n) (hn : n ≤ INT_MAX) (fuel : Nat) (hf : (n - 1).toNat ≤ fuel) :
    bessk rep bessk0 bessk1 fuel n x =
      { trace := [Event.tox (2 / x), Event.bessk0 x, Event.bessk1 x]
          ++ (List.range (n - 1).toNat).map
              (fun (k : Nat) =>
                Event.body ((k : Int) + 1) (K bessk0 bessk1 x k) (K bessk0 bessk1 x (k + 1))),
        outcome := Outcome.returned (K bessk0 bessk1 x n.toNat) } := by
  rw [bessk_eq_of_two_le rep bessk0 bessk1 x n h2, forLoop_from_start bessk0 bessk1 x n hn fuel hf]
  have e : (n - 1).toNat + 1 = n.toNat := by omega
  simp only [windowAt, e, List.map_map, Function.comp_def]

theorem reports_append (l₁ l₂ : List (Event α)) : reports (l₁ ++ l₂) = reports l₁ ++ reports l₂ := by
  induction l₁ with
  | nil => rfl
  | cons e es ih => cases e <;> simp [reports, ih]

theorem bodyCounters_append (l₁ l₂ : List (Event α)) :
    bodyCounters (l₁ ++ l₂) = bodyCounters l₁ ++ bodyCounters l₂ := by
  induction l₁ with
  | nil => rfl
  | cons e es ih => cases e <;> simp [bodyCounters, ih]

theorem reports_map_body (ws : List (Win α)) :
    reports (ws.map (fun w => Event.body w.j w.bkm w.bk)) = [] := by
  induction ws with
  | nil => rfl
  | cons w ws ih => simp [reports, ih]

theorem bodyCounters_map_body (ws : List (Win α)) :
    bodyCounters (ws.map (fun w => Event.body w.j w.bkm w.bk)) = ws.map Win.j := by
  induction ws with
  | nil => rfl
  | cons w ws ih => simp [bodyCounters, ih]

theorem bodyCounters_windowAt (bessk0 bessk1 : α → α) (x : α) (m : Nat) :
    bodyCounters (((List.range m).map (fun k => windowAt bessk0 bessk1 x k)).map
        (fun w => Event.body w.j w.bkm w.bk))
      = (List.range m).map (fun (k : Nat) => (k : Int) + 1) := by
  rw [bodyCounters_map_body, List.map_map]
  rfl

end Lemmas

section Claims

variable {α : Type} [Add α] [Mul α] [Div α] [OfNat α 2] [IntCast α]

/-- C1: for every `int` `n ≥ 2` and every `x`, whatever the reporter and the base evaluators
are, `bessk(n, x)` run with enough fuel returns the `n`-th term of the sequence
`K 0 = bessk0 x`, `K 1 = bessk1 x`, `K (j+1) = K (j-1) + j * (2/x) * K j`, and `nrerror` is
not called.  No law of arithmetic is used, so this holds in exact arithmetic. -/
theorem bessk_returns_K (rep : String → Option Unit) (bessk0 bessk1 : α → α) (x : α) (n : Int)
    (h2 : 2 ≤ n) (hn : n ≤ INT_MAX) (fuel : Nat) (hf : (n - 1).toNat ≤ fuel) :
    (bessk rep bessk0 bessk1 fuel n x).outcome = Outcome.returned (K bessk0 bessk1 x n.toNat)
      ∧ reports (bessk rep bessk0 bessk1 fuel n x).trace = [] := by
  rw [bessk_run_of_two_le rep bessk0 bessk1 x n h2 hn fuel hf]
  refine ⟨rfl, ?_⟩
  have h := reports_map_body ((List.range (n - 1).toNat).map (fun k => windowAt bessk0 bessk1 x k))
  simp only [List.map_map, Function.comp_def, windowAt] at h
  rw [reports_append, h]
  rfl

theorem bessk_returns_K_witness :
    (2 : Int) ≤ 3 ∧ (3 : Int) ≤ INT_MAX ∧ ((3 : Int) - 1).toNat ≤ 2 ∧
      (bessk nrerror unitBase unitBase 2 3 2).outcome
        = Outcome.returned (K unitBase unitBase 2 (3 : Int).toNat)
      ∧ reports (bessk nrerror unitBase unitBase 2 3 2).trace = [] :=
  ⟨by decide, by decide, by decide,
    bessk_returns_K nrerror unitBase unitBase 2 3 (by decide) (by decide) 2
      (by decide)⟩

/-- C2: for every `n < 2` and every `x`, with the reporter of the spec (which never returns
normally), `bessk(n, x)` calls `nrerror` with its message and the call ends there: the
outcome is the failure, not a returned number, and nothing follows the report. -/
theorem bessk_rejects_small_order (bessk0 bessk1 : α → α) (fuel : Nat) (n : Int) (x : α)
    (h : n < 2) :
    bessk nrerror bessk0 bessk1 fuel n x
      = { trace := [Event.nrerror errorText], outcome := Outcome.exited errorText } := by
  simp [bessk, h, nrerror]

theorem bessk_rejects_small_order_witness :
    (1 : Int) < 2 ∧
      bessk nrerror unitBase unitBase 5 1 1
        = { trace := [Event.nrerror errorText], outcome := Outcome.exited errorText } :=
  ⟨by decide, bessk_rejects_small_order unitBase unitBase 5 1 1 (by decide)⟩

/-- C3: `bessk(n, x)` reports an error exactly when `n < 2`, whatever `x`, the fuel and the
collaborators are: the list of reports is the one message when `n < 2` and empty otherwise,
the call can only end inside the reporter when `n < 2`, and for `n ≥ 2` the first effect is
the unchecked assignment `tox = 2/x`, followed by the two base calls. -/
theorem bessk_reports_iff (rep : String → Option Unit) (bessk0 bessk1 : α → α) (fuel : Nat)
    (n : Int) (x : α) :
    reports (bessk rep bessk0 bessk1 fuel n x).trace = (if n < 2 then [errorText] else [])
      ∧ ((∃ msg, (bessk rep bessk0 bessk1 fuel n x).outcome = Outcome.exited msg) → n < 2)
      ∧ (2 ≤ n → ∃ rest, (bessk rep bessk0 bessk1 fuel n x).trace
          = Event.tox (2 / x) :: Event.bessk0 x :: Event.bessk1 x :: rest) := by
  by_cases h : n < 2
  · cases hr : rep errorText with
    | none =>
      refine ⟨by simp [bessk, h, hr, reports], fun _ => h, fun h2 => absurd h (not_lt.mpr h2)⟩
    | some u =>
      refine ⟨?_, fun _ => h, fun h2 => absurd h (not_lt.mpr h2)⟩
      simp [bessk, h, hr, reports, reports_append, reports_map_body]
  · have h2 : 2 ≤ n := not_lt.mp h
    rw [bessk_eq_of_two_le rep bessk0 bessk1 x n h2]
    refine ⟨?_, ?_, fun _ => ⟨_, rfl⟩⟩
    · simp [h, reports, reports_append, reports_map_body]
    · rintro ⟨msg, hm⟩
      revert hm
      simp only
      split <;> simp

theorem bessk_reports_iff_witness :
    (2 : Int) ≤ 2 ∧ ∃ rest, (bessk nrerror unitBase unitBase 0 2 0).trace
          = Event.tox (2 / 0) :: Event.bessk0 0 :: Event.bessk1 0 :: rest :=
  ⟨by decide, (bessk_reports_iff nrerror unitBase unitBase 0 2 0).2.2 (by decide)⟩

/-- C8: for every `n < 2`, whatever the reporter does afterwards, the call of `nrerror` is
the first effect of `bessk(n, x)` (before `tox`, before both base calls and before any
pass through the loop body) and there is no second report. -/
theorem bessk_fail_fast (rep : String → Option Unit) (bessk0 bessk1 : α → α) (fuel : Nat)
    (n : Int) (x : α) (h : n < 2) :
    ∃ rest, (bessk rep bessk0 bessk1 fuel n x).trace = Event.nrerror errorText :: rest
      ∧ reports rest = [] := by
  cases hr : rep errorText with
  | none => exact ⟨[], by simp [bessk, h, hr], rfl⟩
  | some u =>
    refine ⟨_, by simp only [bessk, h, hr, if_true, Option.map_some', List.cons_append,
      List.nil_append, List.append_assoc]; rfl, ?_⟩
    simp [reports, reports_append, reports_map_body]

theorem bessk_fail_fast_witness :
    (0 : Int) < 2 ∧
      ∃ rest, (bessk nrerrorReturning unitBase unitBase 3 0 1).trace
          = Event.nrerror errorText :: rest ∧ reports rest = [] :=
  ⟨by decide, bessk_fail_fast nrerrorReturning unitBase unitBase 3 0 1 (by decide)⟩

/-- C9: for every `int` `n ≥ 2`, every `x` and every `j` with `1 ≤ j ≤ n - 1`, the body of
the loop is entered for the `j`-th time with counter `j` and window `bkm = K (j-1)`,
`bk = K j`; the step turns that window into `bkm = K j`, `bk = K (j+1)` with counter `j + 1`;
and the loop is left with `j = n`, `bkm = K (n-1)`, `bk = K n`. -/
theorem sliding_window_invariant (rep : String → Option Unit) (bessk0 bessk1 : α → α) (x : α)
    (n : Int) (h2 : 2 ≤ n) (hn : n ≤ INT_MAX) (fuel : Nat) (hf : (n - 1).toNat ≤ fuel)
    (j : Nat) (h1 : 1 ≤ j) (hj : (j : Int) ≤ n - 1) :
    (bessk rep bessk0 bessk1 fuel n x).trace[j + 2]?
        = some (Event.body j (K bessk0 bessk1 x (j - 1)) (K bessk0 bessk1 x j))
      ∧ loopStep (2 / x) { j := j, bkm := K bessk0 bessk1 x (j - 1), bk := K bessk0 bessk1 x j }
        = { j := (j : Int) + 1, bkm := K bessk0 bessk1 x j, bk := K bessk0 bessk1 x (j + 1) }
      ∧ (forLoop n (2 / x) fuel { j := 1, bkm := bessk0 x, bk := bessk1 x }).2
        = some { j := n, bkm := K bessk0 bessk1 x (n.toNat - 1), bk := K bessk0 bessk1 x n.toNat } := by
  obtain ⟨i, rfl⟩ : ∃ i, j = i + 1 := ⟨j - 1, by omega⟩
  refine ⟨?_, ?_, ?_⟩
  · rw [bessk_run_of_two_le rep bessk0 bessk1 x n h2 hn fuel hf]
    have hi : i < n.toNat - 1 := by omega
    simp [List.getElem?_append_right, List.getElem?_range hi]
  · have h := loopStep_windowAt bessk0 bessk1 x i (by omega)
    simpa [windowAt, add_assoc] using h
  · rw [forLoop_from_start bessk0 bessk1 x n hn fuel hf]
    have e : (n - 1).toNat + 1 = n.toNat := by omega
    have e' : (n - 1).toNat = n.toNat - 1 := by omega
    have e'' : (((n - 1).toNat : Nat) : Int) + 1 = n := by omega
    simp only [windowAt, e, e'']
    rw [e']

theorem sliding_window_invariant_witness :
    (2 : Int) ≤ 4 ∧ (4 : Int) ≤ INT_MAX ∧ ((4 : Int) - 1).toNat ≤ 3 ∧ 1 ≤ 2 ∧ ((2 : Nat) : Int) ≤ 4 - 1 ∧
    ((bessk nrerror unitBase unitBase 3 4 2).trace[2 + 2]?
        = some (Event.body (2 : Nat) (K unitBase unitBase 2 (2 - 1))
            (K unitBase unitBase 2 2))
      ∧ loopStep ((2 : ℚ) / 2)
          (Win.mk ((2 : Nat) : Int) (K unitBase unitBase 2 (2 - 1)) (K unitBase unitBase 2 2))
        = Win.mk (((2 : Nat) : Int) + 1) (K unitBase unitBase 2 2) (K unitBase unitBase 2 (2 + 1))
      ∧ (forLoop 4 ((2 : ℚ) / 2) 3 (Win.mk 1 (unitBase 2) (unitBase 2))).2
        = some (Win.mk 4 (K unitBase unitBase 2 ((4 : Int).toNat - 1))
            (K unitBase unitBase 2 (4 : Int).toNat))) :=
  ⟨by decide, by decide, by decide, by decide, by decide,
    sliding_window_invariant nrerror unitBase unitBase 2 4 (by decide) (by decide) 3
      (by decide) 2 (by decide) (by decide)⟩

/-- C10: for every `int` `n`, with fuel `n - 1` (none when `n ≤ 1`) the call does not run out
of fuel, so the loop terminates; the counters with which the body is entered are exactly
`1, 2, ..., n - 1` in this order, which is `n - 1` passes for `n ≥ 2` and none for `n ≤ 1`. -/
theorem loop_iteration_count (rep : String → Option Unit) (bessk0 bessk1 : α → α) (x : α)
    (n : Int) (hn : n ≤ INT_MAX) (fuel : Nat) (hf : (n - 1).toNat ≤ fuel) :
    (bessk rep bessk0 bessk1 fuel n x).outcome ≠ Outcome.unfinished
      ∧ bodyCounters (bessk rep bessk0 bessk1 fuel n x).trace
          = (List.range (n - 1).toNat).map (fun (k : Nat) => (k : Int) + 1)
      ∧ (2 ≤ n → ((bodyCounters (bessk rep bessk0 bessk1 fuel n x).trace).length : Int) = n - 1)
      ∧ (n ≤ 1 → bodyCounters (bessk rep bessk0 bessk1 fuel n x).trace = []) := by
  have key : (bessk rep bessk0 bessk1 fuel n x).outcome ≠ Outcome.unfinished
      ∧ bodyCounters (bessk rep bessk0 bessk1 fuel n x).trace
          = (List.range (n - 1).toNat).map (fun (k : Nat) => (k : Int) + 1) := by
    have hloop := forLoop_from_start bessk0 bessk1 x n hn fuel hf
    have hb := bodyCounters_windowAt bessk0 bessk1 x (n - 1).toNat
    by_cases h : n < 2
    · cases hr : rep errorText with
      | none =>
        have hz : (n - 1).toNat = 0 := by omega
        simp [bessk, h, hr, bodyCounters, hz]
      | some u =>
        simp only [bessk, h, hr, if_true, Option.map_some', hloop, bodyCounters_append, hb]
        exact ⟨by simp, rfl⟩
    · rw [bessk_eq_of_two_le rep bessk0 bessk1 x n (not_lt.mp h), hloop]
      simp only [bodyCounters_append, hb]
      exact ⟨by simp, rfl⟩
  refine ⟨key.1, key.2, fun h2 => ?_, fun h1 => ?_⟩
  · rw [key.2]
    simp only [List.length_map, List.length_range]
    omega
  · rw [key.2]
    have hz : (n - 1).toNat = 0 := by omega
    simp [hz]

theorem loop_iteration_count_witness :
    (3 : Int) ≤ INT_MAX ∧ ((3 : Int) - 1).toNat ≤ 2 ∧
    ((bessk nrerror unitBase unitBase 2 3 2).outcome ≠ Outcome.unfinished
      ∧ bodyCounters (bessk nrerror unitBase unitBase 2 3 2).trace
          = (List.range ((3 : Int) - 1).toNat).map (fun (k : Nat) => (k : Int) + 1)
      ∧ ((2 : Int) ≤ 3 →
          ((bodyCounters (bessk nrerror unitBase unitBase 2 3 2).trace).length : Int)
            = 3 - 1)
      ∧ ((3 : Int) ≤ 1 → bodyCounters (bessk nrerror unitBase unitBase 2 3 2).trace = [])) :=
  ⟨by decide, by decide,
    loop_iteration_count nrerror unitBase unitBase 2 3 (by decide) 2 (by decide)⟩

end Claims

section ExactArithmetic

variable {α : Type} [Field α]

theorem K_succ_succ (bessk0 bessk1 : α → α) (x : α) (m : Nat) :
    K bessk0 bessk1 x (m + 2)
      = K bessk0 bessk1 x m + (((m : Int) + 1 : Int) : α) * (2 / x) * K bessk0 bessk1 x (m + 1) := by
  rw [K]

theorem K_two (bessk0 bessk1 : α → α) (x : α) :
    K bessk0 bessk1 x 2 = bessk0 x + 2 / x * bessk1 x := by
  simp [K]

/-- C4: in exact arithmetic the values returned by separate calls satisfy the recurrence:
`bessk(j+1, x) = bessk(j-1, x) + j * (2/x) * bessk(j, x)` for every `j ≥ 3` (with `j + 1` an
`int`), `bessk(3, x) = bessk1(x) + 2 * (2/x) * bessk(2, x)`, and
`bessk(2, x) = bessk0(x) + (2/x) * bessk1(x)`; each call is run with enough fuel. -/
theorem recurrence_between_calls (rep : String → Option Unit) (bessk0 bessk1 : α → α) (x : α) :
    (∀ (j : Int) (fuel : Nat), 3 ≤ j → j + 1 ≤ INT_MAX → j.toNat ≤ fuel →
      ∃ a b c, (bessk rep bessk0 bessk1 fuel (j + 1) x).outcome = Outcome.returned a
        ∧ (bessk rep bessk0 bessk1 fuel (j - 1) x).outcome = Outcome.returned b
        ∧ (bessk rep bessk0 bessk1 fuel j x).outcome = Outcome.returned c
        ∧ a = b + (j : α) * (2 / x) * c)
    ∧ (∀ (fuel : Nat), 2 ≤ fuel →
      ∃ a c, (bessk rep bessk0 bessk1 fuel 3 x).outcome = Outcome.returned a
        ∧ (bessk rep bessk0 bessk1 fuel 2 x).outcome = Outcome.returned c
        ∧ a = bessk1 x + 2 * (2 / x) * c)
    ∧ (∀ (fuel : Nat), 1 ≤ fuel →
      (bessk rep bessk0 bessk1 fuel 2 x).outcome
        = Outcome.returned (bessk0 x + 2 / x * bessk1 x)) := by
  have hmax : (3 : Int) ≤ INT_MAX := by decide
  refine ⟨fun j fuel h3 hj hf => ?_, fun fuel hf => ?_, fun fuel hf => ?_⟩
  · have hj' : j ≤ INT_MAX := by omega
    have hj'' : j - 1 ≤ INT_MAX := by omega
    refine ⟨_, _, _,
      congrArg Run.outcome (bessk_run_of_two_le rep bessk0 bessk1 x (j + 1) (by omega) hj fuel
        (by omega)),
      congrArg Run.outcome (bessk_run_of_two_le rep bessk0 bessk1 x (j - 1) (by omega) hj'' fuel
        (by omega)),
      congrArg Run.outcome (bessk_run_of_two_le rep bessk0 bessk1 x j (by omega) hj' fuel
        (by omega)), ?_⟩
    obtain ⟨m, rfl⟩ : ∃ m : Nat, j = (m : Int) + 1 := ⟨(j - 1).toNat, by omega⟩
    have e1 : ((m : Int) + 1 + 1).toNat = m + 2 := by omega
    have e2 : ((m : Int) + 1 - 1).toNat = m := by omega
    have e3 : ((m : Int) + 1).toNat = m + 1 := by omega
    simp only [e1, e2, e3]
    exact K_succ_succ bessk0 bessk1 x m
  · refine ⟨_, _,
      congrArg Run.outcome (bessk_run_of_two_le rep bessk0 bessk1 x 3 (by decide) hmax fuel
        (by simpa using hf)),
      congrArg Run.outcome (bessk_run_of_two_le rep bessk0 bessk1 x 2 (by decide) (by decide) fuel
        (by simp; omega)), ?_⟩
    have e1 : (3 : Int).toNat = 1 + 2 := by decide
    have e2 : (2 : Int).toNat = 1 + 1 := by decide
    simp only [e1, e2]
    rw [K_succ_succ]
    simp [K]
  · have h := congrArg Run.outcome (bessk_run_of_two_le rep bessk0 bessk1 x 2 (by decide)
      (by decide) fuel (by simpa using hf))
    have e2 : (2 : Int).toNat = 2 := by decide
    rw [h]
    simp only [e2, K_two]

theorem recurrence_between_calls_witness :
    (3 : Int) ≤ 3 ∧ (3 : Int) + 1 ≤ INT_MAX ∧ (3 : Int).toNat ≤ 3 ∧
      ∃ a b c, (bessk nrerror unitBase unitBase 3 (3 + 1) 2).outcome = Outcome.returned a
        ∧ (bessk nrerror unitBase unitBase 3 (3 - 1) 2).outcome = Outcome.returned b
        ∧ (bessk nrerror unitBase unitBase 3 3 2).outcome = Outcome.returned c
        ∧ a = b + ((3 : Int) : ℚ) * (2 / 2) * c :=
  ⟨by decide, by decide, by decide,
    (recurrence_between_calls nrerror unitBase unitBase 2).1 3 3 (by decide) (by decide)
      (by decide)⟩

end ExactArithmetic

section KnownValues

variable {α : Type} [LinearOrderedField α]

theorem K_five_at_two (bessk0 bessk1 : α → α) :
    K bessk0 bessk1 2 5 = 30 * bessk0 2 + 43 * bessk1 2 := by
  simp [K]
  ring

/-- C6: over an ordered field, if `bessk0(1)` and `bessk1(1)` are within `1e-10` of
`0.4210244382` and `0.6019072302`, then `bessk(2, 1)` returns `bessk0(1) + 2 * bessk1(1)` and
this value is within `1e-9` of `1.6248388986`. -/
theorem known_value_order_two (rep : String → Option Unit) (bessk0 bessk1 : α → α) (fuel : Nat)
    (hf : 1 ≤ fuel) (h0 : |bessk0 1 - 0.4210244382| ≤ 1e-10)
    (h1 : |bessk1 1 - 0.6019072302| ≤ 1e-10) :
    (bessk rep bessk0 bessk1 fuel 2 1).outcome = Outcome.returned (bessk0 1 + 2 * bessk1 1)
      ∧ |bessk0 1 + 2 * bessk1 1 - 1.6248388986| ≤ 1e-9 := by
  constructor
  · have h := congrArg Run.outcome (bessk_run_of_two_le rep bessk0 bessk1 1 2 (by decide)
      (by decide) fuel (by simpa using hf))
    have e2 : (2 : Int).toNat = 2 := by decide
    rw [h]
    simp only [e2, K_two, div_one]
  · rw [abs_le] at h0 h1 ⊢
    norm_num at h0 h1 ⊢
    constructor <;> linarith

theorem known_value_order_two_witness :
    1 ≤ 1 ∧ |(fun _ => 0.4210244382 : ℚ → ℚ) 1 - 0.4210244382| ≤ 1e-10
      ∧ |(fun _ => 0.6019072302 : ℚ → ℚ) 1 - 0.6019072302| ≤ 1e-10
      ∧ (bessk nrerror (fun _ => 0.4210244382 : ℚ → ℚ) (fun _ => 0.6019072302) 1 2 1).outcome
          = Outcome.returned ((fun _ => 0.4210244382 : ℚ → ℚ) 1
              + 2 * (fun _ => 0.6019072302 : ℚ → ℚ) 1)
      ∧ |(fun _ => 0.4210244382 : ℚ → ℚ) 1 + 2 * (fun _ => 0.6019072302 : ℚ → ℚ) 1
            - 1.6248388986| ≤ 1e-9 :=
  ⟨le_refl 1, by norm_num, by norm_num,
    known_value_order_two nrerror (fun _ => 0.4210244382 : ℚ → ℚ) (fun _ => 0.6019072302) 1
      (le_refl 1) (by norm_num) (by norm_num)⟩

/-- C7, as stated, fails: with base evaluators returning exactly `0.1138938727` and
`0.1398658818` at `2`, `bessk(5, 2)` returns `9.4310490984`, which is not within relative
tolerance `1e-6` of `166.632`. -/
theorem order_five_reference_refuted :
    |tableBessk0 2 - 0.1138938727| ≤ 1e-10 ∧ |tableBessk1 2 - 0.1398658818| ≤ 1e-10
      ∧ (bessk nrerror tableBessk0 tableBessk1 4 5 2).outcome = Outcome.returned 9.4310490984
      ∧ ¬ |(9.4310490984 : ℚ) - 166.632| ≤ 1e-6 * |166.632| := by
  refine ⟨by norm_num [tableBessk0], by norm_num [tableBessk1], ?_, ?_⟩
  · simp [bessk, forLoop, loopStep, wrapInt, tableBessk0, tableBessk1]
    norm_num
  · have h1 : |(166.632 : ℚ)| = 166.632 := abs_of_pos (by norm_num)
    have h2 : |(9.4310490984 : ℚ) - 166.632| = 166.632 - 9.4310490984 := by
      rw [abs_of_neg (by norm_num)]
      ring
    rw [h1, h2]
    norm_num

/-- C7, amended: over an ordered field, if `bessk0(2)` and `bessk1(2)` are within `1e-10` of
`0.1138938727` and `0.1398658818`, then `bessk(5, 2)` returns
`30 * bessk0(2) + 43 * bessk1(2)` and this value is within relative tolerance `1e-6` of
`9.4310491`. -/
theorem known_value_order_five (rep : String → Option Unit) (bessk0 bessk1 : α → α) (fuel : Nat)
    (hf : 4 ≤ fuel) (h0 : |bessk0 2 - 0.1138938727| ≤ 1e-10)
    (h1 : |bessk1 2 - 0.1398658818| ≤ 1e-10) :
    (bessk rep bessk0 bessk1 fuel 5 2).outcome
        = Outcome.returned (30 * bessk0 2 + 43 * bessk1 2)
      ∧ |30 * bessk0 2 + 43 * bessk1 2 - 9.4310491| ≤ 1e-6 * |9.4310491| := by
  constructor
  · have h := congrArg Run.outcome (bessk_run_of_two_le rep bessk0 bessk1 2 5 (by decide)
      (by decide) fuel (by simpa using hf))
    have e5 : (5 : Int).toNat = 5 := by decide
    rw [h]
    simp only [e5, K_five_at_two]
  · have hp : |(9.4310491 : α)| = 9.4310491 := abs_of_pos (by norm_num)
    rw [hp]
    rw [abs_le] at h0 h1 ⊢
    norm_num at h0 h1 ⊢
    constructor <;> linarith

theorem known_value_order_five_witness :
    4 ≤ 4 ∧ |tableBessk0 2 - 0.1138938727| ≤ 1e-10 ∧ |tableBessk1 2 - 0.1398658818| ≤ 1e-10
      ∧ (bessk nrerror tableBessk0 tableBessk1 4 5 2).outcome
          = Outcome.returned (30 * tableBessk0 2 + 43 * tableBessk1 2)
      ∧ |30 * tableBessk0 2 + 43 * tableBessk1 2 - 9.4310491| ≤ 1e-6 * |9.4310491| :=
  ⟨le_refl 4, by norm_num [tableBessk0], by norm_num [tableBessk1],
    known_value_order_five nrerror tableBessk0 tableBessk1 4 (le_refl 4)
      (by norm_num [tableBessk0]) (by norm_num [tableBessk1])⟩

end KnownValues

section BesselIntegral

open MeasureTheory Set Filter Topology

theorem sq_div_four_le_cosh (t : ℝ) (ht : 0 ≤ t) : t ^ 2 / 4 ≤ Real.cosh t := by
  have h1 := Real.quadratic_le_exp_of_nonneg ht
  have h2 : 0 < Real.exp (-t) := Real.exp_pos _
  rw [Real.cosh_eq]
  linarith

theorem cosh_le_exp (y : ℝ) (hy : 0 ≤ y) : Real.cosh y ≤ Real.exp y := by
  have h : Real.exp (-y) ≤ Real.exp y := Real.exp_le_exp.mpr (by linarith)
  rw [Real.cosh_eq]
  linarith

theorem sinh_le_exp (y : ℝ) : Real.sinh y ≤ Real.exp y := by
  have h2 : 0 < Real.exp (-y) := Real.exp_pos _
  have h3 : 0 < Real.exp y := Real.exp_pos _
  rw [Real.sinh_eq]
  linarith

/-- Domination of the kernel by a decaying exponential. -/
theorem kernel_bound (x : ℝ) (hx : 0 < x) (a : ℝ) (t : ℝ) (ht : 0 ≤ t) :
    Real.exp (-x * Real.cosh t) * Real.exp (a * t)
      ≤ Real.exp ((a + 1) ^ 2 / x) * Real.exp (-1 * t) := by
  rw [← Real.exp_add, ← Real.exp_add, Real.exp_le_exp]
  have hc := sq_div_four_le_cosh t ht
  have hsq : (a + 1) ^ 2 / x - (a + 1) * t + x * t ^ 2 / 4 = ((a + 1) - x * t / 2) ^ 2 / x := by
    field_simp
    ring
  have hnn : 0 ≤ ((a + 1) - x * t / 2) ^ 2 / x := div_nonneg (sq_nonneg _) hx.le
  have hxc : x * (t ^ 2 / 4) ≤ x * Real.cosh t := mul_le_mul_of_nonneg_left hc hx.le
  nlinarith

theorem integrableOn_kernel_cosh (x : ℝ) (hx : 0 < x) (ν : ℕ) :
    IntegrableOn (fun t => Real.exp (-x * Real.cosh t) * Real.cosh (ν * t)) (Ioi 0) := by
  have hg : IntegrableOn (fun t : ℝ => Real.exp (((ν : ℝ) + 1) ^ 2 / x) * Real.exp (-1 * t)) (Ioi 0) :=
    (exp_neg_integrableOn_Ioi 0 one_pos).const_mul _
  refine Integrable.mono' hg ?_ ?_
  · apply Continuous.aestronglyMeasurable
    fun_prop
  · refine (ae_restrict_iff' measurableSet_Ioi).mpr (Eventually.of_forall fun t ht => ?_)
    have ht0 : (0 : ℝ) ≤ t := le_of_lt ht
    have hνt : 0 ≤ (ν : ℝ) * t := mul_nonneg (Nat.cast_nonneg _) ht0
    rw [Real.norm_eq_abs, abs_of_nonneg (mul_nonneg (Real.exp_pos _).le (Real.cosh_pos _).le)]
    calc Real.exp (-x * Real.cosh t) * Real.cosh (ν * t)
        ≤ Real.exp (-x * Real.cosh t) * Real.exp (ν * t) :=
          mul_le_mul_of_nonneg_left (cosh_le_exp _ hνt) (Real.exp_pos _).le
      _ ≤ _ := kernel_bound x hx ν t ht0


theorem besselK_lt_succ (x : ℝ) (hx : 0 < x) (ν : ℕ) : besselK ν x < besselK (ν + 1) x := by
  have hi0 := integrableOn_kernel_cosh x hx ν
  have hi1 := integrableOn_kernel_cosh x hx (ν + 1)
  have hsub : besselK (ν + 1) x - besselK ν x
      = ∫ t in Ioi (0 : ℝ), (Real.exp (-x * Real.cosh t) * Real.cosh ((ν + 1 : ℕ) * t)
          - Real.exp (-x * Real.cosh t) * Real.cosh (ν * t)) := by
    unfold besselK
    rw [integral_sub hi1 hi0]
  have hpos : ∀ t ∈ Ioi (0 : ℝ), 0 < Real.exp (-x * Real.cosh t) * Real.cosh ((ν + 1 : ℕ) * t)
          - Real.exp (-x * Real.cosh t) * Real.cosh (ν * t) := by
    intro t ht
    have ht0 : (0 : ℝ) < t := ht
    have hlt : Real.cosh (ν * t) < Real.cosh ((ν + 1 : ℕ) * t) := by
      rw [Real.cosh_lt_cosh, abs_of_nonneg (mul_nonneg (Nat.cast_nonneg _) ht0.le),
        abs_of_nonneg (mul_nonneg (Nat.cast_nonneg _) ht0.le)]
      push_cast
      nlinarith
    have := mul_lt_mul_of_pos_left hlt (Real.exp_pos (-x * Real.cosh t))
    linarith
  have hint : 0 < ∫ t in Ioi (0 : ℝ), (Real.exp (-x * Real.cosh t) * Real.cosh ((ν + 1 : ℕ) * t)
          - Real.exp (-x * Real.cosh t) * Real.cosh (ν * t)) := by
    rw [setIntegral_pos_iff_support_of_nonneg_ae]
    · have hs : Function.support (fun t => Real.exp (-x * Real.cosh t) * Real.cosh ((ν + 1 : ℕ) * t)
          - Real.exp (-x * Real.cosh t) * Real.cosh (ν * t)) ∩ Ioi (0 : ℝ) = Ioi 0 := by
        apply Set.inter_eq_right.mpr
        intro t ht
        exact (hpos t ht).ne'
      rw [hs, Real.volume_Ioi]
      exact ENNReal.zero_lt_top
    · exact (ae_restrict_iff' measurableSet_Ioi).mpr
        (Eventually.of_forall fun t ht => (hpos t ht).le)
    · exact hi1.sub hi0
  linarith

theorem sinh_mul_sinh (a b : ℝ) :
    Real.sinh a * Real.sinh b = (Real.cosh (a + b) - Real.cosh (a - b)) / 2 := by
  rw [Real.cosh_add, Real.cosh_sub]
  ring

theorem besselK_recurrence (x : ℝ) (hx : 0 < x) (m : ℕ) :
    besselK (m + 2) x = besselK m x + (((m : ℤ) + 1 : ℤ) : ℝ) * (2 / x) * besselK (m + 1) x := by
  have hi0 := integrableOn_kernel_cosh x hx m
  have hi1 := integrableOn_kernel_cosh x hx (m + 1)
  have hi2 := integrableOn_kernel_cosh x hx (m + 2)
  -- the antiderivative
  set F : ℝ → ℝ := fun t => Real.exp (-x * Real.cosh t) * Real.sinh ((m + 1 : ℕ) * t) with hF
  set F' : ℝ → ℝ := fun t =>
    ((m + 1 : ℕ) : ℝ) * (Real.exp (-x * Real.cosh t) * Real.cosh ((m + 1 : ℕ) * t))
      - x / 2 * (Real.exp (-x * Real.cosh t) * Real.cosh ((m + 2 : ℕ) * t)
          - Real.exp (-x * Real.cosh t) * Real.cosh (m * t)) with hF'
  have hderiv : ∀ t ∈ Ici (0 : ℝ), HasDerivAt F (F' t) t := by
    intro t _
    have h1 : HasDerivAt (fun t => Real.exp (-x * Real.cosh t))
        (Real.exp (-x * Real.cosh t) * (-x * Real.sinh t)) t :=
      ((Real.hasDerivAt_cosh t).const_mul (-x)).exp
    have h2 : HasDerivAt (fun t => Real.sinh (((m + 1 : ℕ) : ℝ) * t))
        (Real.cosh (((m + 1 : ℕ) : ℝ) * t) * (((m + 1 : ℕ) : ℝ) * 1)) t :=
      ((hasDerivAt_id t).const_mul (((m + 1 : ℕ) : ℝ))).sinh
    have h3 := h1.mul h2
    refine h3.congr_deriv ?_
    have e1 : ((m + 2 : ℕ) : ℝ) * t = t + ((m + 1 : ℕ) : ℝ) * t := by push_cast; ring
    have e2 : (m : ℝ) * t = -(t - ((m + 1 : ℕ) : ℝ) * t) := by push_cast; ring
    simp only [hF', e1, e2, Real.cosh_neg]
    have := sinh_mul_sinh t (((m + 1 : ℕ) : ℝ) * t)
    linear_combination (Real.exp (-x * Real.cosh t) * (-x)) * this
  have hd : IntegrableOn (fun t => Real.exp (-x * Real.cosh t) * Real.cosh ((m + 2 : ℕ) * t)
      - Real.exp (-x * Real.cosh t) * Real.cosh (m * t)) (Ioi 0) := hi2.sub hi0
  have hF'int : IntegrableOn F' (Ioi 0) := (hi1.const_mul _).sub (hd.const_mul _)
  have htend : Tendsto F atTop (𝓝 0) := by
    have hg : Tendsto (fun t : ℝ => Real.exp ((((m + 1 : ℕ) : ℝ) + 1) ^ 2 / x) * Real.exp (-1 * t))
        atTop (𝓝 0) := by
      have := Real.tendsto_exp_neg_atTop_nhds_zero.const_mul
        (Real.exp ((((m + 1 : ℕ) : ℝ) + 1) ^ 2 / x))
      simpa using this
    refine squeeze_zero' ?_ ?_ hg
    · filter_upwards [eventually_ge_atTop (0 : ℝ)] with t ht
      exact mul_nonneg (Real.exp_pos _).le
        (Real.sinh_nonneg_iff.mpr (mul_nonneg (Nat.cast_nonneg _) ht))
    · filter_upwards [eventually_ge_atTop (0 : ℝ)] with t ht
      calc F t ≤ Real.exp (-x * Real.cosh t) * Real.exp (((m + 1 : ℕ) : ℝ) * t) :=
            mul_le_mul_of_nonneg_left (sinh_le_exp _) (Real.exp_pos _).le
        _ ≤ _ := kernel_bound x hx _ t ht
  have hftc := integral_Ioi_of_hasDerivAt_of_tendsto' hderiv hF'int htend
  have hF0 : F 0 = 0 := by simp [hF]
  have hint : ∫ t in Ioi (0 : ℝ), F' t
      = ((m + 1 : ℕ) : ℝ) * besselK (m + 1) x - x / 2 * (besselK (m + 2) x - besselK m x) := by
    simp only [hF', besselK]
    rw [integral_sub (hi1.const_mul _) (hd.const_mul _), integral_mul_left,
      integral_mul_left, integral_sub hi2 hi0]
  rw [hint, hF0] at hftc
  have hx' : x ≠ 0 := hx.ne'
  field_simp
  push_cast at hftc ⊢
  linear_combination (-2) * hftc

theorem besselK_pos (x : ℝ) (hx : 0 < x) (ν : ℕ) : 0 < besselK ν x := by
  unfold besselK
  have hpos : ∀ t ∈ Ioi (0 : ℝ), 0 < Real.exp (-x * Real.cosh t) * Real.cosh (ν * t) :=
    fun t _ => mul_pos (Real.exp_pos _) (Real.cosh_pos _)
  rw [setIntegral_pos_iff_support_of_nonneg_ae]
  · have hs : Function.support (fun t => Real.exp (-x * Real.cosh t) * Real.cosh (ν * t))
        ∩ Ioi (0 : ℝ) = Ioi 0 := by
      apply Set.inter_eq_right.mpr
      intro t ht
      exact (hpos t ht).ne'
    rw [hs, Real.volume_Ioi]
    exact ENNReal.zero_lt_top
  · exact (ae_restrict_iff' measurableSet_Ioi).mpr
      (Eventually.of_forall fun t ht => (hpos t ht).le)
  · exact integrableOn_kernel_cosh x hx ν

/-- With the Bessel functions as base evaluators, the sequence of the recurrence is the
sequence of the Bessel functions of integer order. -/
theorem K_eq_besselK (x : ℝ) (hx : 0 < x) :
    ∀ m : ℕ, K (besselK 0) (besselK 1) x m = besselK m x
      ∧ K (besselK 0) (besselK 1) x (m + 1) = besselK (m + 1) x := by
  intro m
  induction m with
  | zero => exact ⟨rfl, rfl⟩
  | succ m ih =>
    refine ⟨ih.2, ?_⟩
    rw [K_succ_succ, ih.1, ih.2, besselK_recurrence x hx m]

/-- C5, amended: in exact real arithmetic (no rounding, no overflow), with the base
evaluators of the spec, which return the positive values `K_0(x)` and `K_1(x)` of the
modified Bessel function of the second kind, for every `x > 0` and every `n ≥ 2` (with
`n + 1` an `int`) the calls `bessk(n + 1, x)` and `bessk(n, x)` both return and the first
value is strictly greater than the second. -/
theorem monotonic_growth (rep : String → Option Unit) (x : ℝ) (hx : 0 < x) (n : Int)
    (h2 : 2 ≤ n) (hn : n + 1 ≤ INT_MAX) (fuel : Nat) (hf : n.toNat ≤ fuel) :
    0 < besselK 0 x ∧ 0 < besselK 1 x ∧
      ∃ a b, (bessk rep (besselK 0) (besselK 1) fuel (n + 1) x).outcome = Outcome.returned a
        ∧ (bessk rep (besselK 0) (besselK 1) fuel n x).outcome = Outcome.returned b
        ∧ b < a := by
  have hn' : n ≤ INT_MAX := by omega
  refine ⟨besselK_pos x hx 0, besselK_pos x hx 1, _, _,
    congrArg Run.outcome (bessk_run_of_two_le rep (besselK 0) (besselK 1) x (n + 1) (by omega)
      hn fuel (by omega)),
    congrArg Run.outcome (bessk_run_of_two_le rep (besselK 0) (besselK 1) x n h2 hn' fuel
      (by omega)), ?_⟩
  have e : (n + 1).toNat = n.toNat + 1 := by omega
  simp only [e]
  rw [(K_eq_besselK x hx n.toNat).1, (K_eq_besselK x hx n.toNat).2]
  exact besselK_lt_succ x hx n.toNat

theorem monotonic_growth_witness :
    (0 : ℝ) < 1 ∧ (2 : Int) ≤ 2 ∧ (2 : Int) + 1 ≤ INT_MAX ∧ (2 : Int).toNat ≤ 2 ∧
    (0 < besselK 0 1 ∧ 0 < besselK 1 1 ∧
      ∃ a b, (bessk nrerror (besselK 0) (besselK 1) 2 (2 + 1) 1).outcome = Outcome.returned a
        ∧ (bessk nrerror (besselK 0) (besselK 1) 2 2 1).outcome = Outcome.returned b
        ∧ b < a) :=
  ⟨one_pos, by decide, by decide, by decide,
    monotonic_growth nrerror 1 one_pos 2 (by decide) (by decide) 2 (by decide)⟩

/-- Positive base values alone do not give growth: with `bessk0(100) = 10` and
`bessk1(100) = 1` the call of order 3 returns less than the call of order 2. -/
theorem growth_needs_bessel_values :
    (0 : ℚ) < skewBessk0 100 ∧ (0 : ℚ) < unitBase 100
      ∧ (bessk nrerror skewBessk0 unitBase 2 3 100).outcome = Outcome.returned (14008 / 10000)
      ∧ (bessk nrerror skewBessk0 unitBase 2 2 100).outcome = Outcome.returned (1002 / 100)
      ∧ (14008 / 10000 : ℚ) < 1002 / 100 := by
  refine ⟨by norm_num [skewBessk0], by norm_num [unitBase], ?_, ?_, by norm_num⟩
  · simp [bessk, forLoop, loopStep, wrapInt, skewBessk0, unitBase]
    norm_num
  · simp [bessk, forLoop, loopStep, wrapInt, skewBessk0, unitBase]
    norm_num

end BesselIntegral

section FallThrough

variable {α : Type} [Add α] [Mul α] [Div α] [OfNat α 2] [IntCast α]

/-- C13: if the reporter comes back to its caller, then for every `n < 2`, every `x` and any
fuel, `bessk(n, x)` goes on after the report: it computes `tox`, calls both base evaluators,
never enters the loop body, and returns exactly `bessk1(x)`. -/
theorem bessk_falls_through (rep : String → Option Unit) (bessk0 bessk1 : α → α) (fuel : Nat)
    (n : Int) (x : α) (hrep : rep errorText = some ()) (h : n < 2) :
    bessk rep bessk0 bessk1 fuel n x
        = { trace := [Event.nrerror errorText, Event.tox (2 / x), Event.bessk0 x, Event.bessk1 x],
            outcome := Outcome.returned (bessk1 x) }
      ∧ bodyCounters (bessk rep bessk0 bessk1 fuel n x).trace = [] := by
  have hstop := forLoop_stop n (2 / x) fuel { j := 1, bkm := bessk0 x, bk := bessk1 x }
    (by show n ≤ 1; omega)
  have hrun : bessk rep bessk0 bessk1 fuel n x
      = { trace := [Event.nrerror errorText, Event.tox (2 / x), Event.bessk0 x, Event.bessk1 x],
          outcome := Outcome.returned (bessk1 x) } := by
    simp [bessk, h, hrep, hstop]
  exact ⟨hrun, by rw [hrun]; rfl⟩

theorem bessk_falls_through_witness :
    nrerrorReturning errorText = some () ∧ (1 : Int) < 2 ∧
      (bessk nrerrorReturning unitBase unitBase 0 1 3
        = { trace := [Event.nrerror errorText, Event.tox (2 / 3), Event.bessk0 3, Event.bessk1 3],
            outcome := Outcome.returned (unitBase 3) }
      ∧ bodyCounters (bessk nrerrorReturning unitBase unitBase 0 1 3).trace = []) :=
  ⟨rfl, by decide, bessk_falls_through nrerrorReturning unitBase unitBase 0 1 3 rfl (by decide)⟩

end FallThrough

section CounterRange

variable {α : Type} [Add α] [Mul α] [Div α] [OfNat α 2] [IntCast α]

/-- The counters of the body entries of a whole call, for any reporter. -/
theorem bodyCounters_trace (rep : String → Option Unit) (bessk0 bessk1 : α → α) (x : α)
    (n : Int) (hn : n ≤ INT_MAX) (fuel : Nat) (hf : (n - 1).toNat ≤ fuel) :
    bodyCounters (bessk rep bessk0 bessk1 fuel n x).trace
      = (List.range (n - 1).toNat).map (fun (k : Nat) => (k : Int) + 1) := by
  have hloop := forLoop_from_start bessk0 bessk1 x n hn fuel hf
  have hb := bodyCounters_windowAt bessk0 bessk1 x (n - 1).toNat
  by_cases h : n < 2
  · cases hr : rep errorText with
    | none =>
      have hz : (n - 1).toNat = 0 := by omega
      simp [bessk, h, hr, bodyCounters, hz]
    | some u =>
      simp only [bessk, h, hr, if_true, Option.map_some', hloop, bodyCounters_append, hb]
      rfl
  · rw [bessk_eq_of_two_le rep bessk0 bessk1 x n (not_lt.mp h), hloop]
    simp only [bodyCounters_append, hb]
    rfl

/-- C14: for every 32-bit `int` `n` and a complete run of the loop, every counter `j` with
which the body is entered satisfies `1 ≤ j` and `j + 1 ≤ max n 1 ≤ INT_MAX`, so the
increment `j++` is not changed by the reduction to 32 bits; the counter at loop exit is
`max n 1`.  This covers `n = INT_MAX`. -/
theorem counter_never_overflows (rep : String → Option Unit) (bessk0 bessk1 : α → α) (x : α)
    (n : Int) (_hlo : INT_MIN ≤ n) (hhi : n ≤ INT_MAX) (fuel : Nat)
    (hf : (n - 1).toNat ≤ fuel) :
    (∀ j ∈ bodyCounters (bessk rep bessk0 bessk1 fuel n x).trace,
        1 ≤ j ∧ j + 1 ≤ max n 1 ∧ j + 1 ≤ INT_MAX ∧ wrapInt (j + 1) = j + 1)
      ∧ (∀ w ∈ (forLoop n (2 / x) fuel { j := 1, bkm := bessk0 x, bk := bessk1 x }).1,
          1 ≤ w.j ∧ w.j + 1 ≤ max n 1 ∧ (loopStep (2 / x) w).j = w.j + 1)
      ∧ (∃ w, (forLoop n (2 / x) fuel { j := 1, bkm := bessk0 x, bk := bessk1 x }).2 = some w
          ∧ w.j = max n 1 ∧ w.j ≤ INT_MAX) := by
  have hmax : (1 : Int) ≤ INT_MAX := by decide
  have hwrap : ∀ k : Nat, k < (n - 1).toNat → wrapInt ((k : Int) + 1 + 1) = (k : Int) + 1 + 1 := by
    intro k hk
    apply wrapInt_of_range
    · unfold INT_MIN; omega
    · omega
  refine ⟨?_, ?_, ?_⟩
  · rw [bodyCounters_trace rep bessk0 bessk1 x n hhi fuel hf]
    intro j hj
    obtain ⟨k, hk, rfl⟩ := List.mem_map.mp hj
    have hk' : k < (n - 1).toNat := List.mem_range.mp hk
    exact ⟨by omega, by omega, by omega, hwrap k hk'⟩
  · rw [forLoop_from_start bessk0 bessk1 x n hhi fuel hf]
    intro w hw
    obtain ⟨k, hk, rfl⟩ := List.mem_map.mp hw
    have hk' : k < (n - 1).toNat := List.mem_range.mp hk
    refine ⟨by simp only [windowAt]; omega, by simp only [windowAt]; omega, ?_⟩
    simp only [loopStep, windowAt]
    exact hwrap k hk'
  · rw [forLoop_from_start bessk0 bessk1 x n hhi fuel hf]
    refine ⟨_, rfl, ?_, ?_⟩
    · simp only [windowAt]; omega
    · simp only [windowAt]; omega

theorem counter_never_overflows_witness :
    INT_MIN ≤ INT_MAX ∧ INT_MAX ≤ INT_MAX ∧ (INT_MAX - 1).toNat ≤ 2147483646 ∧
    ((∀ j ∈ bodyCounters (bessk nrerror unitBase unitBase 2147483646 INT_MAX 2).trace,
        1 ≤ j ∧ j + 1 ≤ max INT_MAX 1 ∧ j + 1 ≤ INT_MAX ∧ wrapInt (j + 1) = j + 1)
      ∧ (∀ w ∈ (forLoop INT_MAX ((2 : ℚ) / 2) 2147483646 (Win.mk 1 (unitBase 2) (unitBase 2))).1,
          1 ≤ w.j ∧ w.j + 1 ≤ max INT_MAX 1 ∧ (loopStep ((2 : ℚ) / 2) w).j = w.j + 1)
      ∧ (∃ w, (forLoop INT_MAX ((2 : ℚ) / 2) 2147483646 (Win.mk 1 (unitBase 2) (unitBase 2))).2
            = some w ∧ w.j = max INT_MAX 1 ∧ w.j ≤ INT_MAX)) :=
  ⟨by decide, le_refl _, by decide,
    counter_never_overflows nrerror unitBase unitBase 2 INT_MAX (by decide) (le_refl _)
      2147483646 (by decide)⟩

end CounterRange

section ConditionalGrowth

variable {α : Type} [LinearOrderedField α]

end ConditionalGrowth

section Linearity

variable {α : Type} [Field α]

end Linearity

section DoubleArithmetic

set_option maxRecDepth 100000

set_option exponentiation.threshold 4096

/-- C5, as stated, fails in the double arithmetic of the code: at `x = 2^-1000`, with base
evaluators returning positive finite doubles (the values of `K_0(x)` and `K_1(x)` rounded to
double), the product `tox * bk = 2^1001 * 2^1000` overflows, `bessk(2, x)` and `bessk(3, x)`
both return `+inf`, and `+inf > +inf` is false. -/
theorem growth_fails_in_double :
    (0 : Double) < tinyX ∧ (0 : Double) < tinyBessk0 tinyX ∧ (0 : Double) < tinyBessk1 tinyX
      ∧ tinyBessk0 tinyX < Double.inf false ∧ tinyBessk1 tinyX < Double.inf false
      ∧ (bessk nrerror tinyBessk0 tinyBessk1 2 3 tinyX).outcome
          = Outcome.returned (Double.inf false)
      ∧ (bessk nrerror tinyBessk0 tinyBessk1 1 2 tinyX).outcome
          = Outcome.returned (Double.inf false)
      ∧ ¬ (Double.inf false < Double.inf false) := by
  decide

end DoubleArithmetic

example : (bessk nrerror unitBase unitBase 10 3 2).outcome
    = Outcome.returned 5 := by
  simp [bessk, forLoop, loopStep, wrapInt, unitBase]
  norm_num

end Bessk
